import Mathlib

/-
Verification of the planning_csps repository (encoder.py, csp.py,
csp_backtracking.py) against its natural-language specification.

The Python code is shallowly embedded:
  * Python tuples used as CSP variables, e.g. `(j, 'act')` or
    `(j, fluent, arg)`, are modelled as `Var := Nat × List Tag` where the
    first component is the timestep and the remaining components are tags
    (strings, or - relevant for one encoder bug - integers).
  * Python dicts are modelled as association lists looked up by key.
  * Python sets that are only iterated are modelled as lists in the
    iteration order of one concrete execution.
  * Exceptions are modelled with `Except PyErr`.
-/

set_option autoImplicit false
set_option synthInstance.maxSize 512

namespace PlanningCSP

/-- A component of a Python tuple that serves as a CSP variable: the encoder
puts strings there, except for one buggy code path that puts an integer. -/
inductive Tag where
  | str : String → Tag
  | num : Nat → Tag
deriving DecidableEq

/-- A CSP variable: the Python tuple `(timestep, name...)`. -/
abbrev Var := Nat × List Tag

/-- An action record, the data contract of the planning-problem loader:
`precondition_pos`, `effect_pos` and `effect_neg` are sets of ground fluents
(tuples of strings); sets are modelled as lists in iteration order. -/
structure Action where
  name : String
  precondition_pos : List (List String)
  effect_pos : List (List String)
  effect_neg : List (List String)
deriving DecidableEq

/-- A value a CSP variable can take: booleans (boolean fluents), strings
(attribute-valued fluents) or action records (action-choice variables). -/
inductive Value where
  | bool : Bool → Value
  | str : String → Value
  | action : Action → Value
deriving DecidableEq

/-- A solver-side assignment pair `(variable, value)`: one entry of the
Python dict threaded through `CSP.backtracking_search`, and one
fully-initialised `Assignment` object of `csp_backtracking.py`. -/
abbrev Asg := Var × Value

/-- The Python exceptions the embedded code can raise. -/
inductive PyErr where
  | typeError
  | lookupError
  | keyError
  | recursionError
deriving DecidableEq

/-- Decidable equality of embedded Python results. -/
instance exceptDecidableEq {e a : Type} [DecidableEq e] [DecidableEq a] :
    DecidableEq (Except e a)
  | .error x, .error y =>
    if h : x = y then .isTrue (by rw [h])
    else .isFalse (fun hc => h (by injection hc))
  | .error _, .ok _ => .isFalse (fun hc => Except.noConfusion hc)
  | .ok _, .error _ => .isFalse (fun hc => Except.noConfusion hc)
  | .ok x, .ok y =>
    if h : x = y then .isTrue (by rw [h])
    else .isFalse (fun hc => h (by injection hc))

/-- Association-list lookup, modelling Python dict access `d[k]` /
`k in d`. Returns the first entry with the given key. -/
def alookup {α : Type} : List (Var × α) → Var → Option α
  | [], _ => none
  | (u, x) :: rest, v => if v = u then some x else alookup rest v

/-- The constraint model of `csp.py`: a closed union of the three wrapper
classes `UnaryConstraint`, `ActionsConstraint` and `FrameAxiomsConstraint`,
each holding the tuple of `Assignment`s it was built from. -/
inductive PyConstraint where
  | unary : Asg → PyConstraint
  | binary : Asg → Asg → PyConstraint
  | ternary : Asg → Asg → Asg → PyConstraint
deriving DecidableEq

/-- The `variables` list each `Constraint.__init__` collects from its
assignments (one entry per assignment, in order). -/
def PyConstraint.varsOf : PyConstraint → List Var
  | .unary c1 => [c1.1]
  | .binary c1 c2 => [c1.1, c2.1]
  | .ternary c1 c2 c3 => [c1.1, c2.1, c3.1]

/-- `satisfied(assignments, variable)` of the three constraint classes in
`csp.py`, translated branch by branch.
  * unary: `UnaryConstraint.satisfied` (lines 92-101);
  * binary: `ActionsConstraint.satisfied` (lines 113-143); when `variable`
    is neither constraint variable the Python function falls off the end and
    returns `None`, which is falsy, modelled as `false`;
  * ternary: `FrameAxiomsConstraint.satisfied` (lines 155-196); the test
    `'act' in variable` is Python tuple membership, true iff some component
    of the variable tuple equals the string `'act'` (the integer timestep
    component never equals a string).
`assignments[variable]` is a plain dict access in Python; every call site
has `variable` assigned, and the embedding reads it with `alookup`. -/
def satisfied : PyConstraint → List Asg → Var → Bool
  | .unary c1, m, v =>
    if c1.1 ≠ v then true
    else alookup m v == some c1.2
  | .binary c1 c2, m, v =>
    if v = c1.1 then
      if alookup m v ≠ some c1.2 then true
      else
        match alookup m c2.1 with
        | some x => x == c2.2
        | none => true
    else if v = c2.1 then
      match alookup m c1.1 with
      | some x => if x = c1.2 then alookup m v == some c2.2 else true
      | none => true
    else false
  | .ternary c1 c2 c3, m, v =>
    if Tag.str "act" ∈ v.2 then true
    else
      match alookup m c1.1 with
      | none => true
      | some a =>
        if a ≠ c1.2 then true
        else if v = c2.1 then
          if alookup m c2.1 ≠ some c2.2 then true
          else
            match alookup m c3.1 with
            | none => true
            | some x => x == c3.2
        else if v = c3.1 then
          if alookup m c3.1 ≠ some c3.2 then true
          else
            match alookup m c2.1 with
            | none => true
            | some x => x == c2.2
        else true

/-- The solver-side CSP of `csp.py`: `CSP.__init__` stores the variables and
the domain map (`vars` stands for the Python attribute `variables`, a Lean
keyword); `add_constraint` registers each constraint under every variable it
mentions, modelled by keeping the global constraint list and filtering per
variable. -/
structure SolverCSP where
  vars : List Var
  domains : List (Var × List Value)
  constraintList : List PyConstraint
deriving DecidableEq

/-- `self.constraints[variable]`: the constraints registered under `v`, in
addition order. -/
def constraintsOf (csp : SolverCSP) (v : Var) : List PyConstraint :=
  csp.constraintList.filter (fun c => v ∈ c.varsOf)

/-- `CSP.consistent(variable, assignment)` (csp.py lines 56-60). -/
def consistent (csp : SolverCSP) (v : Var) (m : List Asg) : Bool :=
  (constraintsOf csp v).all (fun c => satisfied c m v)

/-- The domain-map check of `CSP.__init__` (csp.py lines 43-47): walk the
variables and raise `LookupError` at the first one without a domain entry. -/
def checkDomains (ds : List (Var × List Value)) : List Var → Except PyErr Unit
  | [] => .ok ()
  | v :: rest =>
    if (alookup ds v).isSome then checkDomains ds rest
    else .error .lookupError

/-- `CSP.__init__(variables, domains)` (csp.py lines 39-47). -/
def mkCSP (vs : List Var) (ds : List (Var × List Value)) :
    Except PyErr SolverCSP :=
  match checkDomains ds vs with
  | .ok _ => .ok ⟨vs, ds, []⟩
  | .error e => .error e

/-- The membership check of `CSP.add_constraint` (csp.py lines 50-54): walk
the constraint's variables and raise `LookupError` at the first one that is
not a CSP variable. -/
def checkVars (cspVars : List Var) : List Var → Except PyErr Unit
  | [] => .ok ()
  | v :: rest =>
    if v ∈ cspVars then checkVars cspVars rest
    else .error .lookupError

/-- `CSP.add_constraint(constraint)` (csp.py lines 49-54). -/
def addConstraint (csp : SolverCSP) (c : PyConstraint) :
    Except PyErr SolverCSP :=
  match checkVars csp.vars c.varsOf with
  | .ok _ => .ok ⟨csp.vars, csp.domains, csp.constraintList ++ [c]⟩
  | .error e => .error e

/-
The `Assignment` class of encoder.py (lines 25-32): it defines `__init__`
(taking no arguments beyond `self`) and `__repr__` only.  It defines neither
`__eq__` nor `__hash__`, so Python's defaults apply: `a == b` iff `a` and `b`
are the same object, and `hash` is derived from the object identity.  The
model makes the object identity explicit as `oid`; `avar`/`aval` stand for
the Python attributes `variable`/`value` (`variable` is a Lean keyword).
-/
structure PyObjAssignment where
  oid : Nat
  avar : Option Var
  aval : Option Value
deriving DecidableEq

/-- Default Python `object.__eq__`: identity comparison. -/
def pyEq (a b : PyObjAssignment) : Bool := a.oid == b.oid

/-- Default Python `object.__hash__`: derived from the object identity. -/
def pyHash (a : PyObjAssignment) : Nat := a.oid

/-! ### csp_backtracking.py: the forward-checking solver -/

/-- The encoder-produced CSP record consumed by `BacktrackAlgorithm`
(`Encoder(...).csp`): a set of variables, a domain map, and a list of
constraints, each a tuple of fully-initialised `Assignment`s. -/
structure BTCSP where
  vars : List Var
  domains : List (Var × List Value)
  constraints : List (List Asg)
deriving DecidableEq

/-- `BacktrackAlgorithm._variable_in_constraint` (lines 80-94): true iff the
selected variable occurs in the constraint and some variable of the
constraint also occurs among the current assignments. -/
def variableInConstraint (v : Var) (c : List Asg) (asg : List Asg) : Bool :=
  if c.any (fun a => a.1 = v) then
    c.any (fun a => asg.any (fun a2 => a.1 = a2.1))
  else false

/-- `BacktrackAlgorithm._get_relevant_constraints` (lines 96-101). -/
def getRelevantConstraints (v : Var) (asg : List Asg)
    (cs : List (List Asg)) : List (List Asg) :=
  cs.filter (fun c => variableInConstraint v c asg)

/-- The call `Assignment(variable, value)` in `_get_updated_domains`
(line 121): `Assignment.__init__` accepts no arguments beyond `self`, so
every such call raises `TypeError: Assignment() takes no arguments`. -/
def constructAssignment (v : Var) (x : Value) : Except PyErr Asg :=
  .error .typeError

/-- The loop `for value in domains: domain_assignments.append(Assignment(
variable, value))` (lines 120-121): raises at the first iteration; on an
empty domain the loop body never runs. -/
def mapConstruct (v : Var) : List Value → Except PyErr (List Asg)
  | [] => .ok []
  | x :: rest =>
    match constructAssignment v x with
    | .error e => .error e
    | .ok a =>
      match mapConstruct v rest with
      | .error e => .error e
      | .ok tl => .ok (a :: tl)

/-- Python `set.add` on the accumulated `updated_domains` set, modelled as a
duplicate-free list in insertion order. -/
def addValueSet (s : List Value) (x : Value) : List Value :=
  if x ∈ s then s else s ++ [x]

/-- The filtering loop over `itertools.product(domain_assignments,
assignments)` (lines 122-125); `pair[0] in constraint` / `pair[1] in
constraint` are modelled with structural membership (this code is reachable
only with an empty `domain_assignments` list, since building a non-empty one
raises first). -/
def prodFilter (das : List Asg) (asg : List Asg)
    (relevant : List (List Asg)) : List Value :=
  (das.flatMap (fun d => asg.map (fun a2 => (d, a2)))).foldl
    (fun acc pair =>
      relevant.foldl
        (fun acc2 c =>
          if pair.1 ∈ c ∧ pair.2 ∈ c then addValueSet acc2 pair.1.2 else acc2)
        acc)
    []

/-- `BacktrackAlgorithm._get_updated_domains` (lines 110-127). -/
def getUpdatedDomains (v : Var) (doms : List Value) (asg : List Asg)
    (cs : List (List Asg)) : Except PyErr (List Value) :=
  let relevant := getRelevantConstraints v asg cs
  if relevant = [] then .ok doms
  else
    match mapConstruct v doms with
    | .error e => .error e
    | .ok das => .ok (prodFilter das asg relevant)

/-- Python `list.remove`: drop the first element comparing equal to `x`.
`Assignment` equality is object identity; in the embedded executions the
removed pair was appended exactly once and its variable occurs nowhere else
in the list, so structural first-match removal coincides. -/
def listRemove (x : Asg) : List Asg → List Asg
  | [] => []
  | y :: rest => if y = x then rest else y :: listRemove x rest

/-- The value loop of `BacktrackAlgorithm.__call__` (lines 66-76): try each
value of the filtered domain; `k` is the recursive call one level deeper.
The Python `assignments` list and `unassigned_variables` set are shared
mutable state, so the embedding threads their contents through every call
and returns them next to the result; on failure of the recursive call the
appended assignment is removed again (`assignments.remove(assgn)`), and the
next iteration continues with the unassigned set as the recursive call left
it. -/
def tryVals (v : Var)
    (k : List Asg → List Var →
      Except PyErr (Option (List Asg) × List Asg × List Var)) :
    List Value → List Asg → List Var →
      Except PyErr (Option (List Asg) × List Asg × List Var)
  | [], asg, unas => .ok (none, asg, unas)
  | val :: rest, asg, unas =>
    match k (asg ++ [(v, val)]) unas with
    | .error e => .error e
    | .ok (some r, aF, uF) => .ok (some r, aF, uF)
    | .ok (none, aF, uF) => tryVals v k rest (listRemove (v, val) aF) uF

/-- The recursive body of `BacktrackAlgorithm.__call__` (lines 35-78) once
both arguments are non-None.  `unassigned_variables.pop()` removes an
arbitrary element of a Python set; the embedding pops the head of the list,
so the list order models one possible execution.  The fuel argument models
Python's recursion limit (`RecursionError`); every terminating execution is
reproduced with enough fuel. -/
def callBT (csp : BTCSP) : Nat → List Asg → List Var →
    Except PyErr (Option (List Asg) × List Asg × List Var)
  | 0, _, _ => .error .recursionError
  | fuel + 1, asg, unas =>
    match unas with
    | [] => .ok (some asg, asg, [])
    | v :: unas1 =>
      match alookup csp.domains v with
      | none => .error .keyError
      | some doms =>
        match getUpdatedDomains v doms asg csp.constraints with
        | .error e => .error e
        | .ok ud =>
          if ud = [] then .ok (none, asg, unas1)
          else tryVals v (callBT csp fuel) ud asg unas1

/-- The unary pre-pass of `__call__` (lines 38-43): when called with
`assignments=None`, seed the assignment list with the single assignment of
every unary constraint and remove its variable from the unassigned set
(Python `set.remove` raises `KeyError` when the element is absent). -/
def unaryPrepass : List (List Asg) → List Asg → List Var →
    Except PyErr (List Asg × List Var)
  | [], asg, unas => .ok (asg, unas)
  | c :: rest, asg, unas =>
    match c with
    | [a] =>
      if a.1 ∈ unas then unaryPrepass rest (asg ++ [a]) (unas.erase a.1)
      else .error .keyError
    | _ => unaryPrepass rest asg unas

/-- The top-level invocation `BacktrackAlgorithm.__call__(None, None)`:
`unassigned_variables` starts as the whole variable set (`order` is one
possible iteration order of it), assignments start from the unary
pre-pass. -/
def callTop (csp : BTCSP) (order : List Var) (fuel : Nat) :
    Except PyErr (Option (List Asg) × List Asg × List Var) :=
  match unaryPrepass csp.constraints [] order with
  | .error e => .error e
  | .ok (asg, unas) => callBT csp fuel asg unas

/-! ### csp.py: the naive backtracking solver -/

/-- The variable `unassigned[0]` selected by `CSP.backtracking_search`
(csp.py lines 69-72): the unassigned list is stably sorted by the first
tuple component, so the head is the leftmost variable with minimal
timestep. -/
def selectVar : List Var → Option Var
  | [] => none
  | v :: rest =>
    match selectVar rest with
    | none => some v
    | some u => if u.1 < v.1 then some u else some v

/-- `self.domains[first]` (csp.py line 73); a CSP constructed through
`CSP.__init__` has a domain entry for every variable (claim C9), so the
default `[]` is never read on such instances. -/
def domOf (csp : SolverCSP) (v : Var) : List Value :=
  (alookup csp.domains v).getD []

/-- The per-value loop of `CSP.backtracking_search` (csp.py lines 73-79):
`local_assignment` is a copy of the dict with `first` additionally bound,
and `k` is the recursive call. -/
def tryDomain (csp : SolverCSP) (k : List Asg → Option (List Asg))
    (first : Var) (m : List Asg) : List Value → Option (List Asg)
  | [] => none
  | val :: rest =>
    if consistent csp first (m ++ [(first, val)]) then
      match k (m ++ [(first, val)]) with
      | some r => some r
      | none => tryDomain csp k first m rest
    else tryDomain csp k first m rest

/-- `CSP.backtracking_search(assignment)` (csp.py lines 62-80).  The fuel
argument only models Python's recursion limit; each recursive call grows the
assignment by one, so `variables.length + 1` fuel suffices from an empty
assignment (with fuel exhausted the embedding returns `none`, which never
affects the returned-solution claims). -/
def btSearch (csp : SolverCSP) : Nat → List Asg → Option (List Asg)
  | 0, _ => none
  | fuel + 1, m =>
    if m.length = csp.vars.length then some m
    else
      match selectVar (csp.vars.filter (fun v => alookup m v = none)) with
      | none => none
      | some first => tryDomain csp (btSearch csp fuel) first m (domOf csp first)

/-- The external call `csp.backtracking_search({})`. -/
def backtrackingSearch (csp : SolverCSP) : Option (List Asg) :=
  btSearch csp (csp.vars.length + 1) []

/-! ### Concrete instances used by counterexamples and witnesses -/

/-- A state variable used in the C10 instance. -/
def c10v : Var := (0, [Tag.str "p"])

/-- A second variable, already assigned, used in the C10 instance. -/
def c10u : Var := (1, [Tag.str "q"])

/-- The current assignments of the C10 instance. -/
def c10asg : List Asg := [(c10u, Value.bool true)]

/-- A constraint connecting `c10v` with the assigned `c10u`. -/
def c10con : List Asg := [(c10v, Value.bool true), (c10u, Value.bool true)]

/-- The single variable of the C5 instance. -/
def c5w : Var := (0, [Tag.str "p"])

/-- A CSP with one variable whose domain is empty and no constraints: the
solver step pops `c5w`, finds no admissible value and returns failure. -/
def c5csp : BTCSP := ⟨[c5w], [(c5w, [])], []⟩

/-- First variable of the two-variable instance comparing the two solvers. -/
def c4x : Var := (0, [Tag.str "x"])

/-- Second variable of the two-variable instance. -/
def c4y : Var := (1, [Tag.str "y"])

/-- The encoder-style CSP: two variables, singleton domains, one binary
constraint linking them. -/
def c4E : BTCSP :=
  ⟨[c4x, c4y],
   [(c4x, [Value.str "a"]), (c4y, [Value.bool true])],
   [[(c4x, Value.str "a"), (c4y, Value.bool true)]]⟩

/-- The same instance handed to the naive solver, with the constraint tuple
wrapped as an `ActionsConstraint` (arity 2), as the driver in csp.py does. -/
def c4S : SolverCSP :=
  ⟨[c4x, c4y],
   [(c4x, [Value.str "a"]), (c4y, [Value.bool true])],
   [.binary (c4x, Value.str "a") (c4y, Value.bool true)]⟩

/-! ### encoder.py: the planning-problem to CSP encoder -/

/-- The planning-problem data contract consumed by `Encoder` (encoder.py
line 21, spec section 6): ground fluents, actions and the initial/goal
states; Python sets are modelled as lists in iteration order. -/
structure Problem where
  fluents : List (List String)
  actions : List Action
  initial_state : List (List String)
  goal_state : List (List String)
deriving DecidableEq

/-- An encoder-side assignment object: `Assignment()` starts with
`variable = None` and `value = None` (encoder.py lines 27-29), and a few
malformed-input code paths append objects whose fields were never written,
so both fields are `Option`s. -/
abbrev EAsg := Option Var × Option Value

/-- `action.effect_pos.issubset(action.precondition_pos)` (encoder.py lines
97, 130, 171): the no-op test. -/
def isNoop (a : Action) : Bool :=
  a.effect_pos.all (fun e => e ∈ a.precondition_pos)

/-- `csp.variables.add(var)`: insert into a Python set modelled as a
duplicate-free list in first-insertion order. -/
def addVar (vs : List Var) (v : Var) : List Var :=
  if v ∈ vs then vs else vs ++ [v]

/-- `csp.domains[var].add(x)`, creating the entry on first touch. -/
def addDomVal (ds : List (Var × List Value)) (v : Var) (x : Value) :
    List (Var × List Value) :=
  match ds with
  | [] => [(v, [x])]
  | (u, xs) :: rest =>
    if u = v then (u, if x ∈ xs then xs else xs ++ [x]) :: rest
    else (u, xs) :: addDomVal rest v x

/-- `if var not in csp.domains: csp.domains[var] = set()` (encoder.py lines
94-95). -/
def ensureDom (ds : List (Var × List Value)) (v : Var) :
    List (Var × List Value) :=
  if (alookup ds v).isSome then ds else ds ++ [(v, [])]

/-- One fluent/timestep iteration of variable generation (encoder.py lines
77-89): a length-2 fluent gives a boolean variable `(j, name)` with domain
`{True, False}`, a length-3 fluent gives `(j, name, subject)` collecting
the value; any other length takes no branch. -/
def addStateVar (st : List Var × List (Var × List Value)) (p : List String)
    (j : Nat) : List Var × List (Var × List Value) :=
  match p with
  | [x, _] =>
    let v : Var := (j, [Tag.str x])
    (addVar st.1 v,
     addDomVal (addDomVal st.2 v (Value.bool true)) v (Value.bool false))
  | [x, y, z] =>
    let v : Var := (j, [Tag.str x, Tag.str y])
    (addVar st.1 v, addDomVal st.2 v (Value.str z))
  | _ => st

/-- Variable/domain pass 1 over the fluents (encoder.py lines 73-89):
fluents of length at most 1 are skipped, the others produce a variable for
every timestep `0..L`. -/
def pass1 (P : Problem) (L : Nat) : List Var × List (Var × List Value) :=
  P.fluents.foldl
    (fun st p =>
      if p.length ≤ 1 then st
      else (List.range (L + 1)).foldl (fun st2 j => addStateVar st2 p j) st)
    ([], [])

/-- Variable/domain pass 2 (encoder.py lines 91-99): one `(j, 'act')`
variable per step `0..L-1`, whose domain collects every non-no-op
action. -/
def pass2 (P : Problem) (L : Nat) (st : List Var × List (Var × List Value)) :
    List Var × List (Var × List Value) :=
  (List.range L).foldl
    (fun st2 j =>
      let v : Var := (j, [Tag.str "act"])
      (addVar st2.1 v,
       P.actions.foldl
         (fun ds a => if isNoop a then ds else addDomVal ds v (Value.action a))
         (ensureDom st2.2 v)))
    st

/-- The variables and domains of the encoded CSP after both passes. -/
def encVarsDoms (P : Problem) (L : Nat) :
    List Var × List (Var × List Value) :=
  pass2 P L (pass1 P L)

/-- Build the assignment for a ground state fluent bound at timestep `j`
(used for initial/goal states, preconditions and positive effects,
encoder.py lines 105-112, 141-148, 151-158): a length-2 fluent becomes a
boolean-true assignment, a length-3 fluent an attribute assignment; for any
other length the Python code leaves the fresh `Assignment`'s fields as
`None` and still appends it. -/
def asgOfFluentAt (j : Nat) (s : List String) : EAsg :=
  match s with
  | [x, _] => (some (j, [Tag.str x]), some (Value.bool true))
  | [x, y, z] => (some (j, [Tag.str x, Tag.str y]), some (Value.str z))
  | _ => (none, none)

/-- The initial- and goal-state pass (encoder.py lines 102-126): state
fluents containing the component `'adjacent'` are skipped; every other one
yields a unary constraint binding its step-0 (initial) or step-L (goal)
variable. -/
def boundaryConstraints (P : Problem) (L : Nat) : List (List EAsg) :=
  (P.initial_state.filter (fun s => "adjacent" ∉ s)).map
      (fun s => [asgOfFluentAt 0 s])
    ++ (P.goal_state.filter (fun s => "adjacent" ∉ s)).map
      (fun s => [asgOfFluentAt L s])

/-- The `act_assignment` `(j, 'act') = action` (encoder.py lines 134-136 and
175-177). -/
def actAsg (j : Nat) (a : Action) : EAsg :=
  (some (j, [Tag.str "act"]), some (Value.action a))

/-- One step's worth of assignments appended to the running `constraint`
tuple (encoder.py lines 133-166): the action choice, the non-adjacent
preconditions at `j`, the positive effects at `j+1`, and the negative
effects of length at most 2 at `j+1` with value `False`.  (On an empty
negative effect Python raises `IndexError` reading `effect[0]`; the
embedding yields a field-less assignment there instead, and the theorems
about this pass assume no empty negative effects.) -/
def stepPart (a : Action) (j : Nat) : List EAsg :=
  actAsg j a
    :: ((a.precondition_pos.filter (fun p => "adjacent" ∉ p)).map
          (asgOfFluentAt j)
      ++ a.effect_pos.map (asgOfFluentAt (j + 1))
      ++ a.effect_neg.filterMap (fun e =>
          if e.length > 2 then none
          else match e with
            | x :: _ => some (some (j + 1, [Tag.str x]), some (Value.bool false))
            | [] => some ((none, none) : EAsg)))

/-- The step loop of the action-constraints pass for one action (encoder.py
lines 132-167): the tuple `constraint` is initialised once per action,
OUTSIDE the step loop, so the constraint appended at step `j` also carries
every assignment accumulated at steps `0..j-1`. -/
def actionSteps (a : Action) : List Nat → List EAsg → List (List EAsg)
  | [], _ => []
  | j :: rest, acc =>
    (acc ++ stepPart a j) :: actionSteps a rest (acc ++ stepPart a j)

/-- The action-constraints pass (encoder.py lines 129-167): no-op actions
are skipped entirely. -/
def actionConstraints (P : Problem) (L : Nat) : List (List EAsg) :=
  (P.actions.filter (fun a => !(isNoop a))).flatMap
    (fun a => actionSteps a (List.range L) [])

/-- `csp.variables_at_step(step)` with the default `exclude_action = True`
(encoder.py lines 48-54): the variables at the given timestep whose second
component is not `'act'`. -/
def variablesAtStep (vs : List Var) (step : Nat) : List Var :=
  vs.filter (fun v => decide (v.1 = step ∧ v.2.head? ≠ some (Tag.str "act")))

/-- The effect-variable set of an action at step `j` (encoder.py lines
174-184), iterating `effect_pos | effect_neg`; fluents of length other than
2 or 3 take no branch. -/
def effectVars (a : Action) (j : Nat) : List Var :=
  (a.effect_pos ++ a.effect_neg).filterMap (fun p =>
    match p with
    | [x, _] => some ((j, [Tag.str x]) : Var)
    | [x, y, _] => some ((j, [Tag.str x, Tag.str y]) : Var)
    | _ => none)

/-- `invariants = csp.variables_at_step(j) - effect_vars` (encoder.py line
185). -/
def invariantsOf (vs : List Var) (a : Action) (j : Nat) : List Var :=
  (variablesAtStep vs j).filter (fun v => decide (v ∉ effectVars a j))

/-- The per-invariant (variable, value) writes of the frame pass (encoder.py
lines 186-212).  Each iteration overwrites the SAME two `Assignment`
objects `assignment_bef`/`assignment_aft` created once per (action, step) at
lines 178-179.  For a length-2 (boolean) invariant the after-variable is
built from `(invariant[0] + 1, invariant[0])` (lines 194-195): the timestep
appears where the fluent name was intended, an integer component. -/
def frameWrites (ds : List (Var × List Value)) (inv : Var) :
    List (EAsg × EAsg) :=
  match inv.2 with
  | [x] =>
    [true, false].map (fun b =>
      ((some (inv.1, [x]), some (Value.bool b)),
       (some (inv.1 + 1, [Tag.num inv.1]), some (Value.bool b))))
  | [x, y] =>
    ((alookup ds inv).getD []).map (fun d =>
      ((some (inv.1, [x, y]), some d),
       (some (inv.1 + 1, [x, y]), some d)))
  | _ => []

/-- The frame pass for one action and step (encoder.py lines 173-212):
because every appended tuple aliases the same two mutated objects, the list
that materialises is `writes.length` copies of the LAST write. -/
def frameStep (vs : List Var) (ds : List (Var × List Value)) (a : Action)
    (j : Nat) : List (List EAsg) :=
  match ((invariantsOf vs a j).flatMap (frameWrites ds)).getLast? with
  | none => []
  | some last =>
    List.replicate ((invariantsOf vs a j).flatMap (frameWrites ds)).length
      [actAsg j a, last.1, last.2]

/-- The frame-axioms pass (encoder.py lines 170-212): no-op actions are
skipped entirely. -/
def frameConstraints (P : Problem) (L : Nat) : List (List EAsg) :=
  (P.actions.filter (fun a => !(isNoop a))).flatMap (fun a =>
    (List.range L).flatMap (fun j =>
      frameStep (encVarsDoms P L).1 (encVarsDoms P L).2 a j))

/-- The CSP object built by `Encoder._encode` (encoder.py lines 35-46,
68-213). -/
structure EncCSP where
  vars : List Var
  domains : List (Var × List Value)
  constraints : List (List EAsg)
deriving DecidableEq

/-- `Encoder._encode` (encoder.py lines 68-213): variables/domains from the
two passes, then the boundary, action and frame constraints in emission
order. -/
def encode (P : Problem) (L : Nat) : EncCSP :=
  ⟨(encVarsDoms P L).1, (encVarsDoms P L).2,
   boundaryConstraints P L ++ actionConstraints P L ++ frameConstraints P L⟩

/-- A one-action move problem: `a` needs `p(x)` and produces `q(x)`. -/
def aMove : Action := ⟨"a", [["p", "x"]], [["q", "x"]], []⟩

/-- An action whose positive effect is contained in its preconditions: a
no-op. -/
def aNoop : Action := ⟨"n", [["p", "x"]], [["p", "x"]], []⟩

/-- The move planning problem used by the C2/C3 evaluations. -/
def probMove : Problem :=
  ⟨[["p", "x"], ["q", "x"]], [aMove], [["p", "x"]], [["q", "x"]]⟩

/-- The move problem together with a no-op action, used by the C6
witness. -/
def probTwo : Problem :=
  ⟨[["p", "x"], ["q", "x"]], [aNoop, aMove], [["p", "x"]], [["q", "x"]]⟩

/-- A problem whose only fluent is a static adjacency relation. -/
def probAdj : Problem := ⟨[["adjacent", "l1", "l2"]], [], [], []⟩

/-- Every value in the domain map is either a non-action value or a
non-no-op action of the problem: the invariant that the two
variable-generation passes maintain. -/
def DomOk (P : Problem) (ds : List (Var × List Value)) : Prop :=
  ∀ pr ∈ ds, ∀ y ∈ pr.2,
    (∀ b : Action, y ≠ Value.action b) ∨
    (∃ b ∈ P.actions, isNoop b = false ∧ y = Value.action b)

/-! ### The search trace of `CSP.backtracking_search` -/

/-- `Reaches csp m r`: the recursion of `CSP.backtracking_search` can extend
the partial assignment `m` to `r`, one variable per step; each step records
what the code guarantees at that point: the assigned variable is an
unassigned CSP variable of minimal timestep (the head of the stably sorted
unassigned list), its value is drawn from its domain, and the extended
assignment passes the `consistent` check. -/
inductive Reaches (csp : SolverCSP) : List Asg → List Asg → Prop
  | refl (m : List Asg) : Reaches csp m m
  | step (m : List Asg) (v : Var) (val : Value) (r : List Asg) :
      v ∈ csp.vars → alookup m v = none →
      (∀ u ∈ csp.vars, alookup m u = none → v.1 ≤ u.1) →
      val ∈ domOf csp v →
      consistent csp v (m ++ [(v, val)]) = true →
      Reaches csp (m ++ [(v, val)]) r →
      Reaches csp m r

/-- The shape the encoder gives its ternary (frame) constraints: the act
variable and the before variable live at strictly earlier timesteps than the
after variable, before- and after-value coincide, and the after variable is
a state variable (its tuple does not carry the `'act'` tag). -/
def ternaryShapeOk (csp : SolverCSP) : Bool :=
  csp.constraintList.all (fun c =>
    match c with
    | .ternary c1 c2 c3 =>
      decide (c1.1.1 < c3.1.1) && decide (c2.1.1 < c3.1.1) &&
        decide (c2.2 = c3.2) && decide (Tag.str "act" ∉ c3.1.2)
    | _ => true)

/-- Value-completeness of the ternary families, as the encoder emits them:
for every frame constraint and every value of the after-variable's domain,
the sibling constraint binding before and after to that value (with the same
act gate) is also present. -/
def ternaryComplete (csp : SolverCSP) : Bool :=
  csp.constraintList.all (fun c =>
    match c with
    | .ternary c1 c2 c3 =>
      (domOf csp c3.1).all (fun u =>
        decide (PyConstraint.ternary c1 (c2.1, u) (c3.1, u) ∈
          csp.constraintList))
    | _ => true)

/-- The C1 counterexample CSP: three variables at timesteps 0, 1, 2 with
singleton domains and one frame constraint `(act(0)=a, p(1)=True,
q(2)=True)` whose family is NOT value-complete (`q`'s domain only holds
`False`). -/
def c1ex : SolverCSP :=
  ⟨[(0, [Tag.str "act"]), (1, [Tag.str "p"]), (2, [Tag.str "q"])],
   [((0, [Tag.str "act"]), [Value.str "a"]),
    ((1, [Tag.str "p"]), [Value.bool true]),
    ((2, [Tag.str "q"]), [Value.bool false])],
   [.ternary ((0, [Tag.str "act"]), Value.str "a")
      ((1, [Tag.str "p"]), Value.bool true)
      ((2, [Tag.str "q"]), Value.bool true)]⟩

/-- A well-shaped instance for the soundness theorem: one act variable and a
boolean fluent `p` at steps 0 and 1, with the value-complete frame family
`(act(0)=m, p(0)=u, p(1)=u)` for `u` in `{True, False}`. -/
def c1wit : SolverCSP :=
  ⟨[(0, [Tag.str "act"]), (0, [Tag.str "p"]), (1, [Tag.str "p"])],
   [((0, [Tag.str "act"]), [Value.str "m"]),
    ((0, [Tag.str "p"]), [Value.bool true, Value.bool false]),
    ((1, [Tag.str "p"]), [Value.bool true, Value.bool false])],
   [.ternary ((0, [Tag.str "act"]), Value.str "m")
      ((0, [Tag.str "p"]), Value.bool true)
      ((1, [Tag.str "p"]), Value.bool true),
    .ternary ((0, [Tag.str "act"]), Value.str "m")
      ((0, [Tag.str "p"]), Value.bool false)
      ((1, [Tag.str "p"]), Value.bool false)]⟩

/-! ## Theorems -/

theorem alookup_append_some {α : Type} (l₁ l₂ : List (Var × α)) (v : Var)
    (x : α) (h : alookup l₁ v = some x) : alookup (l₁ ++ l₂) v = some x := by
  induction l₁ with
  | nil => simp [alookup] at h
  | cons p rest ih =>
    obtain ⟨u, y⟩ := p
    simp only [alookup, List.cons_append] at h ⊢
    by_cases hv : v = u
    · simpa [hv] using h
    · simp only [hv, if_false] at h ⊢
      exact ih h

theorem alookup_append_none {α : Type} (l₁ l₂ : List (Var × α)) (v : Var)
    (h : alookup l₁ v = none) : alookup (l₁ ++ l₂) v = alookup l₂ v := by
  induction l₁ with
  | nil => simp
  | cons p rest ih =>
    obtain ⟨u, y⟩ := p
    simp only [alookup, List.cons_append] at h ⊢
    by_cases hv : v = u
    · simp [hv] at h
    · simp only [hv, if_false] at h ⊢
      exact ih h

theorem alookup_eq_none_iff {α : Type} (l : List (Var × α)) (v : Var) :
    alookup l v = none ↔ v ∉ l.map Prod.fst := by
  induction l with
  | nil => simp [alookup]
  | cons p rest ih =>
    obtain ⟨u, y⟩ := p
    by_cases hv : v = u
    · simp [alookup, hv]
    · simp [alookup, hv, ih]

theorem alookup_isSome_iff {α : Type} (l : List (Var × α)) (v : Var) :
    (alookup l v).isSome ↔ v ∈ l.map Prod.fst := by
  rw [Option.isSome_iff_ne_none, Ne, alookup_eq_none_iff, not_not]

theorem checkDomains_eq (ds : List (Var × List Value)) (vs : List Var) :
    checkDomains ds vs =
      if vs.all (fun v => (alookup ds v).isSome) then .ok ()
      else .error .lookupError := by
  induction vs with
  | nil => simp [checkDomains]
  | cons v rest ih =>
    rw [checkDomains, List.all_cons, ih]
    by_cases h : (alookup ds v).isSome
    · simp only [h, Bool.true_and, if_true]
    · simp only [h, Bool.false_and]
      simp

theorem checkVars_eq (cspVars : List Var) (vs : List Var) :
    checkVars cspVars vs =
      if vs.all (fun v => decide (v ∈ cspVars)) then .ok ()
      else .error .lookupError := by
  induction vs with
  | nil => simp [checkVars]
  | cons v rest ih =>
    rw [checkVars, List.all_cons, ih]
    by_cases h : v ∈ cspVars
    · simp only [h, decide_true_eq_true, decide_True, Bool.true_and, if_true]
    · simp only [h, decide_False, Bool.false_and]
      simp

/-- Claim C9 (confirmed): constructing a solver-side CSP raises `LookupError`
exactly when some variable has no entry in the domain map, and
`CSP.add_constraint` raises `LookupError` exactly when the constraint
references a variable outside the CSP's variable set; when neither condition
holds, construction and addition return normally (construction with the given
variables and domains and an empty constraint store, addition with the
constraint appended). -/
theorem csp_construction_errors (vs : List Var) (ds : List (Var × List Value))
    (csp : SolverCSP) (c : PyConstraint) :
    (mkCSP vs ds =
      if vs.all (fun v => (alookup ds v).isSome) then .ok ⟨vs, ds, []⟩
      else .error .lookupError) ∧
    (addConstraint csp c =
      if c.varsOf.all (fun v => decide (v ∈ csp.vars)) then
        .ok ⟨csp.vars, csp.domains, csp.constraintList ++ [c]⟩
      else .error .lookupError) := by
  constructor
  · rw [mkCSP, checkDomains_eq]
    by_cases h : vs.all (fun v => (alookup ds v).isSome) <;> simp [h]
  · rw [addConstraint, checkVars_eq]
    by_cases h : c.varsOf.all (fun v => decide (v ∈ csp.vars)) <;>
      simp [h]

/-- Claim C8 (code bug): `Assignment` defines no `__eq__`/`__hash__`, so two
separately constructed assignments with equal `variable` and `value` fields
compare unequal and hash differently under Python's identity defaults,
contradicting the claimed structural equality (which the domain-filtering
test `pair[0] in constraint` in csp_backtracking.py relies on). -/
theorem assignment_identity_equality :
    (PyObjAssignment.mk 0 (some (0, [Tag.str "p"])) (some (Value.bool true))).avar
      = (PyObjAssignment.mk 1 (some (0, [Tag.str "p"])) (some (Value.bool true))).avar ∧
    (PyObjAssignment.mk 0 (some (0, [Tag.str "p"])) (some (Value.bool true))).aval
      = (PyObjAssignment.mk 1 (some (0, [Tag.str "p"])) (some (Value.bool true))).aval ∧
    pyEq (PyObjAssignment.mk 0 (some (0, [Tag.str "p"])) (some (Value.bool true)))
      (PyObjAssignment.mk 1 (some (0, [Tag.str "p"])) (some (Value.bool true))) = false ∧
    pyHash (PyObjAssignment.mk 0 (some (0, [Tag.str "p"])) (some (Value.bool true)))
      ≠ pyHash (PyObjAssignment.mk 1 (some (0, [Tag.str "p"])) (some (Value.bool true))) := by
  refine ⟨rfl, rfl, rfl, ?_⟩
  decide

/-- Claim C10 counterexample: `_get_updated_domains` reached with a relevant
constraint (the selected variable `c10v` occurs in `c10con` together with the
already-assigned `c10u`) but an empty domain set does not raise: the
`Assignment(variable, value)` loop body never runs, and the empty filtered
domain is returned normally. -/
theorem filtering_no_typeerror_on_empty_domain :
    getRelevantConstraints c10v c10asg [c10con] ≠ [] ∧
    getUpdatedDomains c10v [] c10asg [c10con] = .ok [] := by
  decide

/-- Claim C10 (corrected): whenever `_get_updated_domains` is reached with at
least one relevant constraint and a non-empty domain for the selected
variable, it raises `TypeError`, because it constructs
`Assignment(variable, value)` while `Assignment.__init__` accepts no
arguments. -/
theorem filtering_raises_typeerror (v : Var) (doms : List Value)
    (asg : List Asg) (cs : List (List Asg))
    (h1 : getRelevantConstraints v asg cs ≠ []) (h2 : doms ≠ []) :
    getUpdatedDomains v doms asg cs = .error .typeError := by
  unfold getUpdatedDomains
  rw [if_neg h1]
  cases doms with
  | nil => exact absurd rfl h2
  | cons x rest => rfl

/-- Witness for `filtering_raises_typeerror` at the concrete C10 instance
with a non-empty domain. -/
theorem filtering_raises_typeerror_witness :
    getUpdatedDomains c10v [Value.bool true] c10asg [c10con]
      = .error .typeError :=
  filtering_raises_typeerror c10v [Value.bool true] c10asg [c10con]
    (by decide) (by decide)

theorem listRemove_append_self (x : Asg) (l : List Asg) (h : x ∉ l) :
    listRemove x (l ++ [x]) = l := by
  induction l with
  | nil => simp [listRemove]
  | cons y rest ih =>
    have hyx : y ≠ x := fun he => h (he ▸ List.mem_cons_self y rest)
    have hx : x ∉ rest := fun hm => h (List.mem_cons_of_mem y hm)
    simp [listRemove, hyx, ih hx]

theorem tryVals_none_restores (csp : BTCSP) (fuel : Nat)
    (IH : ∀ asg unas a2 u2, (∀ p ∈ asg, p.1 ∉ unas) → unas.Nodup →
      callBT csp fuel asg unas = .ok (none, a2, u2) →
      a2 = asg ∧ u2.Sublist unas.tail) :
    ∀ (vals : List Value) (v : Var) (asg : List Asg) (unas : List Var)
      (a2 : List Asg) (u2 : List Var),
      (∀ p ∈ asg, p.1 ∉ unas) → v ∉ asg.map Prod.fst → v ∉ unas →
      unas.Nodup →
      tryVals v (callBT csp fuel) vals asg unas = .ok (none, a2, u2) →
      a2 = asg ∧ u2.Sublist unas := by
  intro vals
  induction vals with
  | nil =>
    intro v asg unas a2 u2 _ _ _ _ h
    simp only [tryVals, Except.ok.injEq, Prod.mk.injEq, true_and] at h
    exact ⟨h.1.symm, h.2 ▸ List.Sublist.refl unas⟩
  | cons val rest ihv =>
    intro v asg unas a2 u2 Hd Hv Hvu Hnd h
    simp only [tryVals] at h
    cases hk : callBT csp fuel (asg ++ [(v, val)]) unas with
    | error e => rw [hk] at h; exact absurd h (by simp)
    | ok res =>
      obtain ⟨ores, aF, uF⟩ := res
      cases ores with
      | some r => rw [hk] at h; simp at h
      | none =>
        rw [hk] at h
        have h3 : tryVals v (callBT csp fuel) rest (listRemove (v, val) aF) uF
            = Except.ok (none, a2, u2) := h
        have hd1 : ∀ p ∈ asg ++ [(v, val)], p.1 ∉ unas := by
          intro p hp
          rcases List.mem_append.mp hp with hp1 | hp1
          · exact Hd p hp1
          · rcases List.mem_singleton.mp hp1 with rfl
            exact Hvu
        obtain ⟨haF, huF⟩ := IH (asg ++ [(v, val)]) unas aF uF hd1 Hnd hk
        have hrem : listRemove (v, val) aF = asg := by
          rw [haF]
          refine listRemove_append_self (v, val) asg (fun hm => ?_)
          exact Hv (List.mem_map.mpr ⟨(v, val), hm, rfl⟩)
        rw [hrem] at h3
        have huFsub : uF.Sublist unas := huF.trans (List.tail_sublist unas)
        obtain ⟨h1, h2⟩ := ihv v asg uF a2 u2
          (fun p hp hm => Hd p hp (huFsub.subset hm)) Hv
          (fun hm => Hvu (huFsub.subset hm)) (huFsub.nodup Hnd) h3
        exact ⟨h1, h2.trans huFsub⟩

theorem callBT_none_restores (csp : BTCSP) :
    ∀ (fuel : Nat) (asg : List Asg) (unas : List Var) (a2 : List Asg)
      (u2 : List Var),
      (∀ p ∈ asg, p.1 ∉ unas) → unas.Nodup →
      callBT csp fuel asg unas = .ok (none, a2, u2) →
      a2 = asg ∧ u2.Sublist unas.tail := by
  intro fuel
  induction fuel with
  | zero => intro asg unas a2 u2 _ _ h; simp [callBT] at h
  | succ fuel ih =>
    intro asg unas a2 u2 Hd Hnd h
    cases unas with
    | nil => simp [callBT] at h
    | cons v unas1 =>
      simp only [callBT] at h
      cases hd : alookup csp.domains v with
      | none => rw [hd] at h; simp at h
      | some doms =>
        rw [hd] at h
        have h2 : (match getUpdatedDomains v doms asg csp.constraints with
            | Except.error e => (Except.error e :
                Except PyErr (Option (List Asg) × List Asg × List Var))
            | Except.ok ud =>
              if ud = [] then Except.ok (none, asg, unas1)
              else tryVals v (callBT csp fuel) ud asg unas1)
            = Except.ok (none, a2, u2) := h
        cases hu : getUpdatedDomains v doms asg csp.constraints with
        | error e =>
          rw [hu] at h2
          have h3 : (Except.error e :
              Except PyErr (Option (List Asg) × List Asg × List Var))
              = Except.ok (none, a2, u2) := h2
          simp at h3
        | ok ud =>
          rw [hu] at h2
          have h3 : (if ud = [] then Except.ok (none, asg, unas1)
              else tryVals v (callBT csp fuel) ud asg unas1)
              = Except.ok (none, a2, u2) := h2
          by_cases hud : ud = []
          · rw [if_pos hud] at h3
            simp only [Except.ok.injEq, Prod.mk.injEq, true_and] at h3
            exact ⟨h3.1.symm, h3.2 ▸ List.Sublist.refl unas1⟩
          · rw [if_neg hud] at h3
            have Hd1 : ∀ p ∈ asg, p.1 ∉ unas1 :=
              fun p hp hm => Hd p hp (List.mem_cons_of_mem v hm)
            have Hv : v ∉ asg.map Prod.fst := by
              intro hm
              rcases List.mem_map.mp hm with ⟨p, hp, hpv⟩
              exact Hd p hp (hpv ▸ List.mem_cons_self v unas1)
            have Hvu : v ∉ unas1 := (List.nodup_cons.mp Hnd).1
            have Hnd1 : unas1.Nodup := (List.nodup_cons.mp Hnd).2
            exact tryVals_none_restores csp fuel ih ud v asg unas1 a2 u2
              Hd1 Hv Hvu Hnd1 h3

/-- Claim C5 counterexample: on a CSP with the single variable `c5w` (whose
domain is empty) the solver step pops `c5w`, fails, and returns with the
unassigned set left empty: the selected variable is not put back, so the
working state is not restored to its pre-branch snapshot. -/
theorem backtrack_no_restore_example :
    callBT c5csp 1 [] [c5w] = .ok (none, [], []) ∧ ([] : List Var) ≠ [c5w] := by
  decide

/-- Claim C5 (corrected): when a recursive step of
`BacktrackAlgorithm.__call__` returns failure, the assignment list is
restored exactly (`assignments.remove(assgn)` undoes each append), but the
unassigned set is not: the popped variables are never re-inserted, so the
resulting unassigned set is a sublist of the tail of the original one and is
strictly smaller.  The hypotheses say the call starts in a well-formed search
state: no assigned variable is still unassigned, and the unassigned set has
no duplicates. -/
theorem backtrack_restoration (csp : BTCSP) (fuel : Nat) (asg : List Asg)
    (unas : List Var) (a2 : List Asg) (u2 : List Var)
    (hdisj : ∀ p ∈ asg, p.1 ∉ unas) (hnd : unas.Nodup)
    (h : callBT csp fuel asg unas = .ok (none, a2, u2)) :
    a2 = asg ∧ u2.Sublist unas.tail ∧ u2.length < unas.length := by
  obtain ⟨h1, h2⟩ := callBT_none_restores csp fuel asg unas a2 u2 hdisj hnd h
  refine ⟨h1, h2, ?_⟩
  have hne : unas ≠ [] := by
    intro he
    subst he
    cases fuel with
    | zero => simp [callBT] at h
    | succ fuel => simp [callBT] at h
  calc u2.length ≤ unas.tail.length := h2.length_le
    _ < unas.length := by
        cases unas with
        | nil => exact absurd rfl hne
        | cons a b => simp

/-- Witness for `backtrack_restoration` at the concrete C5 instance. -/
theorem backtrack_restoration_witness :
    ([] : List Asg) = [] ∧ ([] : List Var).Sublist ([c5w] : List Var).tail ∧
      ([] : List Var).length < [c5w].length :=
  backtrack_restoration c5csp 1 [] [c5w] [] [] (by simp) (by simp) (by decide)

/-- Claim C4 (code bug): on the two-variable instance `c4E`/`c4S` the naive
`CSP.backtracking_search` returns a full assignment that every registered
constraint accepts, while `BacktrackAlgorithm.__call__` raises `TypeError`
under either possible pop order of the unassigned set (as soon as the second
variable is selected, the constraint linking it to the first becomes relevant
and the `Assignment(variable, value)` call crashes), so the two search
variants are not equivalent in result. -/
theorem solver_equivalence_fails :
    backtrackingSearch c4S = some [(c4x, Value.str "a"), (c4y, Value.bool true)] ∧
    consistent c4S c4x [(c4x, Value.str "a"), (c4y, Value.bool true)] = true ∧
    consistent c4S c4y [(c4x, Value.str "a"), (c4y, Value.bool true)] = true ∧
    callTop c4E [c4x, c4y] 3 = .error .typeError ∧
    callTop c4E [c4y, c4x] 3 = .error .typeError := by
  decide

/-- Claim C2 (code bug): on the one-action move problem with plan length 2,
the action-effect pass emits one CUMULATIVE constraint per step, of lengths
3 and 6, not one binary constraint per precondition/effect: the tuple
`constraint = tuple()` is initialised outside the step loop (encoder.py
line 132), and all the act/precondition/effect assignments of a step are
appended to that same tuple (lines 133-166), so no constraint of this pass
has length 2 (the driver in csp.py would even reject the length-6 one with
`ValueError`). -/
theorem action_constraints_not_binary :
    actionConstraints probMove 2 =
      [[actAsg 0 aMove,
        (some (0, [Tag.str "p"]), some (Value.bool true)),
        (some (1, [Tag.str "q"]), some (Value.bool true))],
       [actAsg 0 aMove,
        (some (0, [Tag.str "p"]), some (Value.bool true)),
        (some (1, [Tag.str "q"]), some (Value.bool true)),
        actAsg 1 aMove,
        (some (1, [Tag.str "p"]), some (Value.bool true)),
        (some (2, [Tag.str "q"]), some (Value.bool true))]] ∧
    (actionConstraints probMove 2).map List.length = [3, 6] := by
  decide

/-- Claim C3 (code bug): on the move problem with plan length 1 the frame
pass emits TWO IDENTICAL ternary constraints instead of one distinct
constraint per (invariant, value) pair: `assignment_bef`/`assignment_aft`
are created once per (action, step) (encoder.py lines 178-179) and mutated
inside the value loop, so every appended tuple aliases the final write
(value `False`); moreover the after-variable is `(1, 0)` - built from
`invariant[0] + 1` and `invariant[0]` (the timestep) where `invariant[1]`
(the fluent name `'p'`) was intended (lines 194-195). -/
theorem frame_constraints_aliased :
    frameConstraints probMove 1 =
      [[actAsg 0 aMove,
        (some (0, [Tag.str "p"]), some (Value.bool false)),
        (some (1, [Tag.num 0]), some (Value.bool false))],
       [actAsg 0 aMove,
        (some (0, [Tag.str "p"]), some (Value.bool false)),
        (some (1, [Tag.num 0]), some (Value.bool false))]] := by
  decide

/-- Claim C7 counterexample: for the ground adjacency fluent
`('adjacent', 'l1', 'l2')` the encoder DOES create the CSP variable
`(0, 'adjacent', 'l1')`, with domain `{'l2'}`: variable generation
(encoder.py lines 73-89) applies no adjacency filter. -/
theorem adjacent_variable_created :
    (0, [Tag.str "adjacent", Tag.str "l1"]) ∈ (encode probAdj 0).vars ∧
    alookup (encode probAdj 0).domains (0, [Tag.str "adjacent", Tag.str "l1"])
      = some [Value.str "l2"] := by
  decide

theorem asgOfFluentAt_var (j : Nat) (s : List String) (w : Var)
    (hadj : "adjacent" ∉ s) (hw : (asgOfFluentAt j s).1 = some w) :
    Tag.str "adjacent" ∉ w.2 := by
  match s with
  | [] => simp [asgOfFluentAt] at hw
  | [x] => simp [asgOfFluentAt] at hw
  | [x, y] =>
    simp only [asgOfFluentAt, Option.some.injEq] at hw
    subst hw
    intro hmem
    have hx : "adjacent" = x := Tag.str.inj (List.mem_singleton.mp hmem)
    rcases hx with rfl
    exact hadj (List.mem_cons_self _ _)
  | [x, y, z] =>
    simp only [asgOfFluentAt, Option.some.injEq] at hw
    subst hw
    intro hmem
    have hxy : "adjacent" = x ∨ "adjacent" = y := by
      rcases List.mem_cons.mp hmem with h1 | h1
      · exact Or.inl (Tag.str.inj h1)
      · exact Or.inr (Tag.str.inj (List.mem_singleton.mp h1))
    rcases hxy with rfl | rfl
    · exact hadj (List.mem_cons_self _ _)
    · exact hadj (List.mem_cons_of_mem _ (List.mem_cons_self _ _))
  | _ :: _ :: _ :: _ :: _ => simp [asgOfFluentAt] at hw

/-- Claim C7 (corrected): ground fluents containing the static component
`'adjacent'` are excluded from the initial- and goal-state constraints -
no variable mentioned by a boundary constraint carries the `'adjacent'`
tag - but they are NOT excluded from variable generation (see the
counterexample `adjacent_variable_created`) nor from the effect and frame
passes. -/
theorem adjacent_excluded_from_boundary (P : Problem) (L : Nat)
    (c : List EAsg) (e : EAsg) (w : Var)
    (hc : c ∈ boundaryConstraints P L) (he : e ∈ c) (hw : e.1 = some w) :
    Tag.str "adjacent" ∉ w.2 := by
  rcases List.mem_append.mp hc with hmem | hmem <;>
  · rcases List.mem_map.mp hmem with ⟨s, hs, rfl⟩
    rcases List.mem_filter.mp hs with ⟨hs1, hs2⟩
    rcases List.mem_singleton.mp he with rfl
    exact asgOfFluentAt_var _ s w (by simpa using hs2) hw

/-- Witness for `adjacent_excluded_from_boundary` at the first boundary
constraint of the move problem. -/
theorem adjacent_excluded_from_boundary_witness :
    Tag.str "adjacent" ∉ [Tag.str "p"] :=
  adjacent_excluded_from_boundary probMove 1
    [(some (0, [Tag.str "p"]), some (Value.bool true))]
    (some (0, [Tag.str "p"]), some (Value.bool true))
    (0, [Tag.str "p"]) (by decide) (by decide) rfl

theorem foldl_preserve {σ α : Type} (Inv : σ → Prop) (f : σ → α → σ) :
    ∀ (l : List α) (s : σ), Inv s →
      (∀ s2 a, a ∈ l → Inv s2 → Inv (f s2 a)) → Inv (l.foldl f s) := by
  intro l
  induction l with
  | nil => intro s h _; exact h
  | cons a rest ih =>
    intro s h hstep
    exact ih (f s a) (hstep s a (List.mem_cons_self a rest) h)
      (fun s2 b hb => hstep s2 b (List.mem_cons_of_mem a hb))

theorem addDomVal_val_mem (ds : List (Var × List Value)) (v : Var)
    (x : Value) : ∀ pr ∈ addDomVal ds v x, ∀ y ∈ pr.2,
      (∃ pr2 ∈ ds, y ∈ pr2.2) ∨ y = x := by
  induction ds with
  | nil =>
    intro pr hpr y hy
    simp only [addDomVal, List.mem_singleton] at hpr
    subst hpr
    exact Or.inr (List.mem_singleton.mp hy)
  | cons p rest ih =>
    obtain ⟨u, xs⟩ := p
    intro pr hpr y hy
    simp only [addDomVal] at hpr
    by_cases huv : u = v
    · rw [if_pos huv] at hpr
      rcases List.mem_cons.mp hpr with rfl | hpr2
      · by_cases hx : x ∈ xs
        · refine Or.inl ⟨(u, xs), List.mem_cons_self _ _, ?_⟩
          simpa [hx] using hy
        · have hy2 : y ∈ xs ++ [x] := by simpa [hx] using hy
          rcases List.mem_append.mp hy2 with h1 | h1
          · exact Or.inl ⟨(u, xs), List.mem_cons_self _ _, h1⟩
          · exact Or.inr (List.mem_singleton.mp h1)
      · exact Or.inl ⟨pr, List.mem_cons_of_mem _ hpr2, hy⟩
    · rw [if_neg huv] at hpr
      rcases List.mem_cons.mp hpr with rfl | hpr2
      · exact Or.inl ⟨(u, xs), List.mem_cons_self _ _, hy⟩
      · rcases ih pr hpr2 y hy with ⟨pr2, h2, h3⟩ | h
        · exact Or.inl ⟨pr2, List.mem_cons_of_mem _ h2, h3⟩
        · exact Or.inr h

theorem ensureDom_val_mem (ds : List (Var × List Value)) (v : Var) :
    ∀ pr ∈ ensureDom ds v, ∀ y ∈ pr.2, ∃ pr2 ∈ ds, y ∈ pr2.2 := by
  intro pr hpr y hy
  unfold ensureDom at hpr
  by_cases h : (alookup ds v).isSome
  · rw [if_pos h] at hpr; exact ⟨pr, hpr, hy⟩
  · rw [if_neg h] at hpr
    rcases List.mem_append.mp hpr with h1 | h1
    · exact ⟨pr, h1, hy⟩
    · rcases List.mem_singleton.mp h1 with rfl
      simp at hy

theorem addDomVal_domOk (P : Problem) (ds : List (Var × List Value))
    (v : Var) (x : Value)
    (hds : DomOk P ds)
    (hx : (∀ b : Action, x ≠ Value.action b) ∨
      (∃ b ∈ P.actions, isNoop b = false ∧ x = Value.action b)) :
    DomOk P (addDomVal ds v x) := by
  intro pr hpr y hy
  rcases addDomVal_val_mem ds v x pr hpr y hy with ⟨pr2, h2, h3⟩ | rfl
  · exact hds pr2 h2 y h3
  · exact hx

theorem pass1_domOk (P : Problem) (L : Nat) : DomOk P (pass1 P L).2 := by
  unfold pass1
  have h0 : DomOk P (([], []) :
      List Var × List (Var × List Value)).2 := by
    intro pr hpr
    exact absurd hpr (List.not_mem_nil pr)
  refine foldl_preserve
    (fun st : List Var × List (Var × List Value) => DomOk P st.2)
    _ P.fluents ([], []) h0 ?_
  intro st p _ hst
  by_cases hp : p.length ≤ 1
  · simpa [hp] using hst
  · rw [if_neg hp]
    refine foldl_preserve
      (fun st2 : List Var × List (Var × List Value) => DomOk P st2.2)
      _ (List.range (L + 1)) st hst ?_
    intro st2 j _ hst2
    unfold addStateVar
    match p with
    | [] => exact hst2
    | [x] => exact hst2
    | [x, y] =>
      exact addDomVal_domOk P _ _ _
        (addDomVal_domOk P _ _ _ hst2 (Or.inl (fun b hb => by cases hb)))
        (Or.inl (fun b hb => by cases hb))
    | [x, y, z] =>
      exact addDomVal_domOk P _ _ _ hst2 (Or.inl (fun b hb => by cases hb))
    | _ :: _ :: _ :: _ :: _ => exact hst2

theorem pass2_domOk (P : Problem) (L : Nat)
    (st : List Var × List (Var × List Value)) (hst : DomOk P st.2) :
    DomOk P (pass2 P L st).2 := by
  unfold pass2
  refine foldl_preserve
    (fun st2 : List Var × List (Var × List Value) => DomOk P st2.2)
    _ (List.range L) st hst ?_
  intro st2 j _ hst2
  have hens : DomOk P (ensureDom st2.2 (j, [Tag.str "act"])) := by
    intro pr hpr y hy
    rcases ensureDom_val_mem st2.2 (j, [Tag.str "act"]) pr hpr y hy with
      ⟨pr2, h2, h3⟩
    exact hst2 pr2 h2 y h3
  refine foldl_preserve (DomOk P) _ P.actions _ hens ?_
  intro ds a ha hds
  by_cases hn : isNoop a
  · simpa [hn] using hds
  · rw [if_neg hn]
    exact addDomVal_domOk P _ _ _ hds
      (Or.inr ⟨a, ha, Bool.not_eq_true _ ▸ eq_false_of_ne_true hn, rfl⟩)

theorem encode_domOk (P : Problem) (L : Nat) :
    DomOk P (encode P L).domains :=
  pass2_domOk P L (pass1 P L) (pass1_domOk P L)

theorem alookup_mem {α : Type} (l : List (Var × α)) (v : Var) (x : α)
    (h : alookup l v = some x) : (v, x) ∈ l := by
  induction l with
  | nil => simp [alookup] at h
  | cons p rest ih =>
    obtain ⟨u, y⟩ := p
    simp only [alookup] at h
    by_cases hv : v = u
    · rw [if_pos hv] at h
      rcases Option.some.inj h with rfl
      exact hv ▸ List.mem_cons_self _ _
    · rw [if_neg hv] at h
      exact List.mem_cons_of_mem _ (ih h)

theorem asgOfFluentAt_val (j : Nat) (s : List String) (b : Action) :
    (asgOfFluentAt j s).2 ≠ some (Value.action b) := by
  match s with
  | [] => simp [asgOfFluentAt]
  | [x] => simp [asgOfFluentAt]
  | [x, y] => simp [asgOfFluentAt]
  | [x, y, z] => simp [asgOfFluentAt]
  | _ :: _ :: _ :: _ :: _ => simp [asgOfFluentAt]

theorem stepPart_val (a : Action) (j : Nat) :
    ∀ e ∈ stepPart a j, ∀ b : Action,
      e.2 = some (Value.action b) → b = a := by
  intro e he b hb
  rcases List.mem_cons.mp he with rfl | he2
  · rcases Option.some.inj hb with h
    exact (Value.action.inj h).symm
  · exfalso
    rcases List.mem_append.mp he2 with h1 | h1
    · rcases List.mem_append.mp h1 with h2 | h2
      · rcases List.mem_map.mp h2 with ⟨p, _, rfl⟩
        exact asgOfFluentAt_val j p b hb
      · rcases List.mem_map.mp h2 with ⟨p, _, rfl⟩
        exact asgOfFluentAt_val (j + 1) p b hb
    · rcases List.mem_filterMap.mp h1 with ⟨p, _, hp2⟩
      by_cases hlen : p.length > 2
      · simp [hlen] at hp2
      · match p with
        | [] =>
          simp only [hlen, if_false] at hp2
          rcases Option.some.inj hp2 with rfl
          simp at hb
        | x :: rest =>
          simp only [hlen, if_false] at hp2
          rcases Option.some.inj hp2 with rfl
          simp at hb

theorem actionSteps_mem (a : Action) :
    ∀ (js : List Nat) (acc : List EAsg) (c : List EAsg),
      c ∈ actionSteps a js acc → ∀ e ∈ c,
        e ∈ acc ∨ ∃ j ∈ js, e ∈ stepPart a j := by
  intro js
  induction js with
  | nil => intro acc c hc; simp [actionSteps] at hc
  | cons j rest ih =>
    intro acc c hc e he
    simp only [actionSteps] at hc
    rcases List.mem_cons.mp hc with rfl | hc2
    · rcases List.mem_append.mp he with h1 | h1
      · exact Or.inl h1
      · exact Or.inr ⟨j, List.mem_cons_self _ _, h1⟩
    · rcases ih _ c hc2 e he with h1 | ⟨j2, hj2, h3⟩
      · rcases List.mem_append.mp h1 with h2 | h2
        · exact Or.inl h2
        · exact Or.inr ⟨j, List.mem_cons_self _ _, h2⟩
      · exact Or.inr ⟨j2, List.mem_cons_of_mem _ hj2, h3⟩

theorem frameWrites_val (P : Problem) (ds : List (Var × List Value))
    (hds : DomOk P ds) (inv : Var) (a : Action) (ha : isNoop a = true)
    (hmem : a ∈ P.actions) :
    ∀ w ∈ frameWrites ds inv,
      w.1.2 ≠ some (Value.action a) ∧ w.2.2 ≠ some (Value.action a) := by
  intro w hw
  unfold frameWrites at hw
  match hinv : inv.2 with
  | [x] =>
    rw [hinv] at hw
    rcases List.mem_map.mp hw with ⟨bl, _, rfl⟩
    constructor <;> simp
  | [x, y] =>
    rw [hinv] at hw
    rcases List.mem_map.mp hw with ⟨d, hd, rfl⟩
    have hdne : d ≠ Value.action a := by
      cases hado : alookup ds inv with
      | none => rw [hado] at hd; simp at hd
      | some xs =>
        rw [hado] at hd
        simp only [Option.getD_some] at hd
        rcases hds (inv, xs) (alookup_mem ds inv xs hado) d hd with hno | hyes
        · exact hno a
        · rcases hyes with ⟨b, _, hbnn, rfl⟩
          intro hcb
          rcases Value.action.inj hcb with rfl
          rw [ha] at hbnn
          cases hbnn
    constructor <;> simpa using hdne
  | [] => rw [hinv] at hw; simp at hw
  | _ :: _ :: _ :: _ => rw [hinv] at hw; simp at hw

/-- Claim C6 (confirmed): a no-op action (one whose positive effects are a
subset of its own positive preconditions) appears in no domain of the
encoded CSP (in particular, in no action-variable domain), and no constraint
of the action-effect pass or of the frame-axiom pass mentions it as a value.
The last hypothesis scopes the statement to inputs on which the embedding of
the negative-effect branch is exact (encoder.py would raise `IndexError` on
an empty negative effect). -/
theorem noop_exclusion (P : Problem) (L : Nat) (a : Action)
    (ha : a ∈ P.actions) (hnoop : isNoop a = true)
    (hne : ∀ b ∈ P.actions, [] ∉ b.effect_neg) :
    (∀ pr ∈ (encode P L).domains, Value.action a ∉ pr.2) ∧
    (∀ c ∈ actionConstraints P L, ∀ e ∈ c, e.2 ≠ some (Value.action a)) ∧
    (∀ c ∈ frameConstraints P L, ∀ e ∈ c, e.2 ≠ some (Value.action a)) := by
  refine ⟨?_, ?_, ?_⟩
  · intro pr hpr hy
    rcases encode_domOk P L pr hpr (Value.action a) hy with hno | hyes
    · exact hno a rfl
    · rcases hyes with ⟨b, _, hbnn, hab⟩
      rcases Value.action.inj hab with rfl
      rw [hnoop] at hbnn
      cases hbnn
  · intro c hc e he hb
    rcases List.mem_flatMap.mp hc with ⟨a2, ha2, hc2⟩
    rcases List.mem_filter.mp ha2 with ⟨ha2m, ha2nn⟩
    rcases actionSteps_mem a2 (List.range L) [] c hc2 e he with h1 | ⟨j, _, h3⟩
    · exact absurd h1 (List.not_mem_nil e)
    · rcases stepPart_val a2 j e h3 a hb with rfl
      rw [hnoop] at ha2nn
      cases ha2nn
  · intro c hc e he hb
    rcases List.mem_flatMap.mp hc with ⟨a2, ha2, hc2⟩
    rcases List.mem_filter.mp ha2 with ⟨ha2m, ha2nn⟩
    rcases List.mem_flatMap.mp hc2 with ⟨j, _, hc3⟩
    unfold frameStep at hc3
    cases hlast : ((invariantsOf (encVarsDoms P L).1 a2 j).flatMap
        (frameWrites (encVarsDoms P L).2)).getLast? with
    | none => rw [hlast] at hc3; simp at hc3
    | some last =>
      rw [hlast] at hc3
      have hceq := List.eq_of_mem_replicate hc3
      subst hceq
      have hlmem : last ∈ (invariantsOf (encVarsDoms P L).1 a2 j).flatMap
          (frameWrites (encVarsDoms P L).2) := by
        rcases List.mem_getLast?_eq_getLast (by rw [hlast]; rfl) with ⟨hne2, rfl⟩
        exact List.getLast_mem hne2
      rcases List.mem_flatMap.mp hlmem with ⟨inv, _, hw⟩
      have hlv := frameWrites_val P (encVarsDoms P L).2
        (pass2_domOk P L (pass1 P L) (pass1_domOk P L)) inv a hnoop ha
        last hw
      rcases List.mem_cons.mp he with rfl | he2
      · rcases Option.some.inj hb with hb2
        rcases Value.action.inj hb2 with rfl
        rw [hnoop] at ha2nn
        cases ha2nn
      · rcases List.mem_cons.mp he2 with rfl | he3
        · exact hlv.1 hb
        · rcases List.mem_singleton.mp he3 with rfl
          exact hlv.2 hb

/-- Witness for `noop_exclusion`: on the two-action problem the no-op `n` is
absent from the action domain `{a}`. -/
theorem noop_exclusion_witness :
    Value.action aNoop ∉ [Value.action aMove] :=
  (noop_exclusion probTwo 1 aNoop (by decide) (by decide) (by decide)).1
    ((0, [Tag.str "act"]), [Value.action aMove]) (by decide)

/-- Claim C1 counterexample: on the instance `c1ex`, whose single constraint
has arity 3, `CSP.backtracking_search` returns a full assignment on which
the constraint's `satisfied` is `False` at the before-variable `(1, 'p')`:
every search-time check was vacuous (the `'act'` shortcut when the act
variable was assigned; the unassigned after-variable when the before
variable was assigned; the after-value mismatch branch when the after
variable was assigned), so the violating full assignment is returned. -/
theorem backtracking_search_unsound_example :
    backtrackingSearch c1ex =
      some [((0, [Tag.str "act"]), Value.str "a"),
            ((1, [Tag.str "p"]), Value.bool true),
            ((2, [Tag.str "q"]), Value.bool false)] ∧
    consistent c1ex (1, [Tag.str "p"])
      [((0, [Tag.str "act"]), Value.str "a"),
       ((1, [Tag.str "p"]), Value.bool true),
       ((2, [Tag.str "q"]), Value.bool false)] = false := by
  decide

theorem selectVar_eq_none (l : List Var) : selectVar l = none ↔ l = [] := by
  cases l with
  | nil => simp [selectVar]
  | cons v rest =>
    simp only [selectVar]
    constructor
    · intro h
      exfalso
      cases hr : selectVar rest with
      | none =>
        rw [hr] at h
        have h2 : some v = (none : Option Var) := h
        cases h2
      | some w =>
        rw [hr] at h
        have h2 : (if w.1 < v.1 then some w else some v)
            = (none : Option Var) := h
        by_cases hlt : w.1 < v.1
        · rw [if_pos hlt] at h2; cases h2
        · rw [if_neg hlt] at h2; cases h2
    · intro h; cases h

theorem selectVar_mem_min (l : List Var) (u : Var) (h : selectVar l = some u) :
    u ∈ l ∧ ∀ x ∈ l, u.1 ≤ x.1 := by
  induction l generalizing u with
  | nil => simp [selectVar] at h
  | cons v rest ih =>
    simp only [selectVar] at h
    cases hr : selectVar rest with
    | none =>
      rw [hr] at h
      have h2 : some v = some u := h
      rcases Option.some.inj h2 with rfl
      have hrest : rest = [] := (selectVar_eq_none rest).mp hr
      subst hrest
      refine ⟨List.mem_singleton.mpr rfl, ?_⟩
      intro x hx
      rcases List.mem_singleton.mp hx with rfl
      exact Nat.le_refl _
    | some w =>
      rw [hr] at h
      have h2 : (if w.1 < v.1 then some w else some v) = some u := h
      obtain ⟨hw1, hw2⟩ := ih w hr
      by_cases hlt : w.1 < v.1
      · rw [if_pos hlt] at h2
        rcases Option.some.inj h2 with rfl
        refine ⟨List.mem_cons_of_mem _ hw1, ?_⟩
        intro x hx
        rcases List.mem_cons.mp hx with rfl | hx2
        · exact Nat.le_of_lt hlt
        · exact hw2 x hx2
      · rw [if_neg hlt] at h2
        rcases Option.some.inj h2 with rfl
        refine ⟨List.mem_cons_self _ _, ?_⟩
        intro x hx
        rcases List.mem_cons.mp hx with rfl | hx2
        · exact Nat.le_refl _
        · exact Nat.le_trans (Nat.le_of_not_lt hlt) (hw2 x hx2)

theorem reaches_extends (csp : SolverCSP) (m r : List Asg)
    (h : Reaches csp m r) : ∃ t, r = m ++ t := by
  induction h with
  | refl m => exact ⟨[], by simp⟩
  | step m v val r _ _ _ _ _ _ ih =>
    rcases ih with ⟨t, rfl⟩
    exact ⟨(v, val) :: t, by simp⟩

theorem reaches_keys_sub (csp : SolverCSP) (m r : List Asg)
    (h : Reaches csp m r) (hm : ∀ p ∈ m, p.1 ∈ csp.vars) :
    ∀ p ∈ r, p.1 ∈ csp.vars := by
  induction h with
  | refl m => exact hm
  | step m v val r hv _ _ _ _ _ ih =>
    refine ih ?_
    intro p hp
    rcases List.mem_append.mp hp with h1 | h1
    · exact hm p h1
    · rcases List.mem_singleton.mp h1 with rfl
      exact hv

theorem reaches_keys_nodup (csp : SolverCSP) (m r : List Asg)
    (h : Reaches csp m r) (hm : (m.map Prod.fst).Nodup) :
    (r.map Prod.fst).Nodup := by
  induction h with
  | refl m => exact hm
  | step m v val r _ hnone _ _ _ _ ih =>
    refine ih ?_
    rw [List.map_append]
    refine List.Nodup.append hm (by simp) ?_
    intro x hx hx2
    simp only [List.map_cons, List.map_nil, List.mem_singleton] at hx2
    subst hx2
    exact (alookup_eq_none_iff m x).mp hnone hx

theorem reaches_snapshot (csp : SolverCSP) (m r : List Asg)
    (h : Reaches csp m r) :
    ∀ v : Var, alookup m v = none → v ∈ r.map Prod.fst →
      ∃ (s : List Asg) (val : Value) (t : List Asg),
        r = s ++ (v, val) :: t ∧
        consistent csp v (s ++ [(v, val)]) = true ∧
        val ∈ domOf csp v ∧
        (∀ u ∈ csp.vars, alookup s u = none → v.1 ≤ u.1) := by
  induction h with
  | refl m =>
    intro v hnone hmem
    exact absurd hmem ((alookup_eq_none_iff m v).mp hnone)
  | step m v0 val0 r _ _ hmin hdom hcons hre ih =>
    intro v hnone hmem
    by_cases hv : v = v0
    · subst hv
      rcases reaches_extends csp _ r hre with ⟨t, rfl⟩
      exact ⟨m, val0, t, by simp, hcons, hdom, hmin⟩
    · have hnone2 : alookup (m ++ [(v0, val0)]) v = none := by
        rw [alookup_append_none m _ v hnone]
        simp [alookup, hv]
      exact ih v hnone2 hmem

theorem nodup_split_lookup (r s t : List Asg) (v : Var) (val : Value)
    (hr : r = s ++ (v, val) :: t) (hnd : (r.map Prod.fst).Nodup) :
    alookup s v = none ∧ alookup r v = some val := by
  have hvs : v ∉ s.map Prod.fst := by
    intro hvmem
    rw [hr, List.map_append] at hnd
    have := (List.nodup_append.mp hnd).2.2
    exact this hvmem (by simp)
  have h1 : alookup s v = none := (alookup_eq_none_iff s v).mpr hvs
  refine ⟨h1, ?_⟩
  rw [hr, alookup_append_none s _ v h1]
  simp [alookup]

theorem tryDomain_reaches (csp : SolverCSP) (k : List Asg → Option (List Asg))
    (first : Var) (m : List Asg)
    (Hk : ∀ m2 r, k m2 = some r →
      Reaches csp m2 r ∧ r.length = csp.vars.length)
    (hv : first ∈ csp.vars) (hnone : alookup m first = none)
    (hmin : ∀ u ∈ csp.vars, alookup m u = none → first.1 ≤ u.1) :
    ∀ (vals : List Value), (∀ x ∈ vals, x ∈ domOf csp first) →
      ∀ r, tryDomain csp k first m vals = some r →
        Reaches csp m r ∧ r.length = csp.vars.length := by
  intro vals
  induction vals with
  | nil => intro _ r hr; simp [tryDomain] at hr
  | cons val rest ih =>
    intro hsub r hr
    simp only [tryDomain] at hr
    by_cases hc : consistent csp first (m ++ [(first, val)]) = true
    · rw [if_pos hc] at hr
      cases hk : k (m ++ [(first, val)]) with
      | some r2 =>
        rw [hk] at hr
        have hr2 : some r2 = some r := hr
        rcases Option.some.inj hr2 with rfl
        obtain ⟨hre, hlen⟩ := Hk _ _ hk
        exact ⟨Reaches.step m first val _ hv hnone hmin
          (hsub val (List.mem_cons_self _ _)) hc hre, hlen⟩
      | none =>
        rw [hk] at hr
        have hr2 : tryDomain csp k first m rest = some r := hr
        exact ih (fun x hx => hsub x (List.mem_cons_of_mem _ hx)) r hr2
    · rw [if_neg hc] at hr
      exact ih (fun x hx => hsub x (List.mem_cons_of_mem _ hx)) r hr

theorem btSearch_reaches (csp : SolverCSP) :
    ∀ (fuel : Nat) (m r : List Asg), btSearch csp fuel m = some r →
      Reaches csp m r ∧ r.length = csp.vars.length := by
  intro fuel
  induction fuel with
  | zero => intro m r h; simp [btSearch] at h
  | succ fuel ih =>
    intro m r h
    simp only [btSearch] at h
    by_cases hlen : m.length = csp.vars.length
    · rw [if_pos hlen] at h
      have h2 : some m = some r := h
      rcases Option.some.inj h2 with rfl
      exact ⟨Reaches.refl m, hlen⟩
    · rw [if_neg hlen] at h
      cases hs : selectVar (csp.vars.filter (fun v => alookup m v = none)) with
      | none =>
        rw [hs] at h
        have h2 : (none : Option (List Asg)) = some r := h
        cases h2
      | some first =>
        rw [hs] at h
        have h2 : tryDomain csp (btSearch csp fuel) first m (domOf csp first)
            = some r := h
        obtain ⟨hmem, hmin⟩ := selectVar_mem_min _ first hs
        have hfil := List.mem_filter.mp hmem
        have hvv : first ∈ csp.vars := hfil.1
        have hnone : alookup m first = none := by
          have := hfil.2
          simpa using this
        have hmin2 : ∀ u ∈ csp.vars, alookup m u = none → first.1 ≤ u.1 := by
          intro u hu hun
          exact hmin u (List.mem_filter.mpr ⟨hu, by simpa using hun⟩)
        exact tryDomain_reaches csp (btSearch csp fuel) first m ih hvv hnone
          hmin2 (domOf csp first) (fun x hx => hx) r h2

theorem backtrackingSearch_reaches (csp : SolverCSP) (r : List Asg)
    (h : backtrackingSearch csp = some r) :
    Reaches csp [] r ∧ r.length = csp.vars.length :=
  btSearch_reaches csp (csp.vars.length + 1) [] r h

theorem satisfied_unary_iff (c1 : Asg) (m : List Asg) (x : Value)
    (hl : alookup m c1.1 = some x) :
    (satisfied (.unary c1) m c1.1 = true ↔ x = c1.2) := by
  simp only [satisfied]
  rw [if_neg (by simp), hl]
  simp

theorem satisfied_unary_other (c1 : Asg) (m : List Asg) (v : Var)
    (hv : v ≠ c1.1) : satisfied (.unary c1) m v = true := by
  simp only [satisfied]
  rw [if_pos (fun he => hv he.symm)]

theorem satisfied_binary_iff (c1 c2 : Asg) (m : List Asg) (v : Var)
    (x1 x2 : Value) (h1 : alookup m c1.1 = some x1)
    (h2 : alookup m c2.1 = some x2) (hv : v = c1.1 ∨ v = c2.1) :
    (satisfied (.binary c1 c2) m v = true ↔ (x1 ≠ c1.2 ∨ x2 = c2.2)) := by
  rcases hv with rfl | rfl
  · by_cases hx1 : x1 = c1.2 <;> by_cases hx2 : x2 = c2.2 <;>
      simp [satisfied, h1, h2, hx1, hx2]
  · by_cases hcc : c2.1 = c1.1
    · have hx12 : x1 = x2 := by
        rw [hcc, h1] at h2
        exact Option.some.inj h2
      subst hx12
      by_cases hx1 : x1 = c1.2 <;> by_cases hx2 : x1 = c2.2 <;>
        simp [satisfied, hcc, h1, hx1, hx2]
    · by_cases hx1 : x1 = c1.2 <;> by_cases hx2 : x2 = c2.2 <;>
        simp [satisfied, hcc, h1, h2, hx1, hx2]

theorem satisfied_ternary_bef_iff (c1 c2 c3 : Asg) (m : List Asg)
    (xa xb xc : Value) (ha : alookup m c1.1 = some xa)
    (hb : alookup m c2.1 = some xb) (hc : alookup m c3.1 = some xc)
    (hact : Tag.str "act" ∉ c2.1.2) :
    (satisfied (.ternary c1 c2 c3) m c2.1 = true ↔
      (xa ≠ c1.2 ∨ xb ≠ c2.2 ∨ xc = c3.2)) := by
  by_cases hxa : xa = c1.2 <;> by_cases hxb : xb = c2.2 <;>
    by_cases hxc : xc = c3.2 <;>
    simp [satisfied, ha, hb, hc, hact, hxa, hxb, hxc]

theorem satisfied_ternary_aft_iff (c1 c2 c3 : Asg) (m : List Asg)
    (xa xb xc : Value) (ha : alookup m c1.1 = some xa)
    (hb : alookup m c2.1 = some xb) (hc : alookup m c3.1 = some xc)
    (hact : Tag.str "act" ∉ c3.1.2) (hne : c3.1 ≠ c2.1) :
    (satisfied (.ternary c1 c2 c3) m c3.1 = true ↔
      (xa ≠ c1.2 ∨ xc ≠ c3.2 ∨ xb = c2.2)) := by
  by_cases hxa : xa = c1.2 <;> by_cases hxb : xb = c2.2 <;>
    by_cases hxc : xc = c3.2 <;>
    simp [satisfied, ha, hb, hc, hact, hne, hxa, hxb, hxc]

theorem satisfied_ternary_other (c1 c2 c3 : Asg) (m : List Asg) (v : Var)
    (h : Tag.str "act" ∈ v.2 ∨ (v ≠ c2.1 ∧ v ≠ c3.1)) :
    satisfied (.ternary c1 c2 c3) m v = true := by
  by_cases hact : Tag.str "act" ∈ v.2
  · simp [satisfied, hact]
  · rcases h with h | ⟨h2, h3⟩
    · exact absurd h hact
    · cases hla : alookup m c1.1 with
      | none => simp [satisfied, hact, hla]
      | some a =>
        by_cases hxa : a = c1.2 <;> simp [satisfied, hact, hla, hxa, h2, h3]

theorem alookup_concat_self (s : List Asg) (w : Var) (val : Value)
    (h : alookup s w = none) : alookup (s ++ [(w, val)]) w = some val := by
  rw [alookup_append_none _ _ _ h]
  simp [alookup]

theorem snapshot_contains_both (r sA tA sB tB : List Asg) (A B : Var)
    (xA xB : Value) (hA : r = sA ++ (A, xA) :: tA)
    (hB : r = sB ++ (B, xB) :: tB) (hne : A ≠ B) :
    A ∈ sB.map Prod.fst ∨ B ∈ sA.map Prod.fst := by
  have heq : sA ++ (A, xA) :: tA = sB ++ (B, xB) :: tB := by rw [← hA, ← hB]
  rcases List.append_eq_append_iff.mp heq with ⟨q, hq1, hq2⟩ | ⟨q, hq1, hq2⟩
  · cases q with
    | nil =>
      simp only [List.nil_append] at hq2
      rcases List.cons.inj hq2 with ⟨hp, _⟩
      exact absurd (congrArg Prod.fst hp) hne
    | cons p q2 =>
      rcases List.cons.inj hq2 with ⟨hp, _⟩
      left
      rw [hq1, ← hp]
      simp
  · cases q with
    | nil =>
      simp only [List.nil_append] at hq2
      rcases List.cons.inj hq2 with ⟨hp, _⟩
      exact absurd (congrArg Prod.fst hp).symm hne
    | cons p q2 =>
      rcases List.cons.inj hq2 with ⟨hp, _⟩
      right
      rw [hq1, ← hp]
      simp

theorem length_subset_nodup_mem (l1 l2 : List Var) (hnd : l1.Nodup)
    (hsub : ∀ x ∈ l1, x ∈ l2) (hle : l2.length ≤ l1.length) :
    ∀ x ∈ l2, x ∈ l1 := by
  have h1 : l1.toFinset ⊆ l2.toFinset := by
    intro x hx
    exact List.mem_toFinset.mpr (hsub x (List.mem_toFinset.mp hx))
  have hcard : l2.toFinset.card ≤ l1.toFinset.card := by
    calc l2.toFinset.card ≤ l2.length := l2.toFinset_card_le
      _ ≤ l1.length := hle
      _ = l1.toFinset.card := (List.toFinset_card_of_nodup hnd).symm
  have heq : l1.toFinset = l2.toFinset :=
    Finset.eq_of_subset_of_card_le h1 hcard
  intro x hx
  exact List.mem_toFinset.mp (heq ▸ List.mem_toFinset.mpr hx)

theorem ternaryShapeOk_spec (csp : SolverCSP)
    (h : ternaryShapeOk csp = true) (c1 c2 c3 : Asg)
    (hc : PyConstraint.ternary c1 c2 c3 ∈ csp.constraintList) :
    c1.1.1 < c3.1.1 ∧ c2.1.1 < c3.1.1 ∧ c2.2 = c3.2 ∧
      Tag.str "act" ∉ c3.1.2 := by
  have h2 := List.all_eq_true.mp h _ hc
  have h3 : ((c1.1.1 < c3.1.1 ∧ c2.1.1 < c3.1.1) ∧ c2.2 = c3.2) ∧
      Tag.str "act" ∉ c3.1.2 := by simpa using h2
  exact ⟨h3.1.1.1, h3.1.1.2, h3.1.2, h3.2⟩

theorem ternaryComplete_spec (csp : SolverCSP)
    (h : ternaryComplete csp = true) (c1 c2 c3 : Asg)
    (hc : PyConstraint.ternary c1 c2 c3 ∈ csp.constraintList)
    (u : Value) (hu : u ∈ domOf csp c3.1) :
    PyConstraint.ternary c1 (c2.1, u) (c3.1, u) ∈ csp.constraintList := by
  have h2 := List.all_eq_true.mp h _ hc
  have h3 : ((domOf csp c3.1).all (fun u2 =>
      decide (PyConstraint.ternary c1 (c2.1, u2) (c3.1, u2) ∈
        csp.constraintList))) = true := h2
  have h4 := List.all_eq_true.mp h3 u hu
  simpa using h4

theorem consistent_sat (csp : SolverCSP) (v : Var) (m : List Asg)
    (c : PyConstraint) (hcons : consistent csp v m = true)
    (hc : c ∈ csp.constraintList) (hv : v ∈ c.varsOf) :
    satisfied c m v = true := by
  unfold consistent at hcons
  exact List.all_eq_true.mp hcons c
    (List.mem_filter.mpr ⟨hc, by simpa using hv⟩)

theorem prefix_lookup_of_mem (r s rest : List Asg) (hr : r = s ++ rest)
    (x : Var) (hx : x ∈ s.map Prod.fst) (xr : Value)
    (hxr : alookup r x = some xr) : alookup s x = some xr := by
  cases hs : alookup s x with
  | none =>
    rw [alookup_eq_none_iff] at hs
    exact absurd hx hs
  | some y =>
    have h2 : alookup r x = some y := by
      rw [hr]
      exact alookup_append_some s rest x y hs
    rw [hxr] at h2
    exact h2.symm

/-- Claim C1 (corrected): soundness of `CSP.backtracking_search` on CSP
instances whose constraints have arity 1, 2 or 3, whose constraints
mention only CSP variables, and whose ternary
(frame) constraints have the shape the encoder gives them: act-gate and
before variable at strictly earlier timesteps than the after variable,
before-value equal to after-value, the after variable a state variable
(`ternaryShapeOk`), and the ternary families value-complete
(`ternaryComplete`).  Every full assignment the search returns then makes
`satisfied` true for every constraint registered under every variable.
Without the ternary side conditions the claim is false - see
`backtracking_search_unsound_example`. -/
theorem backtracking_search_sound (csp : SolverCSP)
    (hwf : ∀ c ∈ csp.constraintList, ∀ w ∈ c.varsOf, w ∈ csp.vars)
    (hshape : ternaryShapeOk csp = true)
    (hcomp : ternaryComplete csp = true)
    (r : List Asg) (hr : backtrackingSearch csp = some r) :
    ∀ v ∈ csp.vars, consistent csp v r = true := by
  obtain ⟨hRe, hlen⟩ := backtrackingSearch_reaches csp r hr
  have hkeysub : ∀ p ∈ r, p.1 ∈ csp.vars :=
    reaches_keys_sub csp [] r hRe (fun p hp => absurd hp (List.not_mem_nil p))
  have hknodup : (r.map Prod.fst).Nodup :=
    reaches_keys_nodup csp [] r hRe (by simp)
  have hmemkeys : ∀ w ∈ csp.vars, w ∈ r.map Prod.fst := by
    refine length_subset_nodup_mem (r.map Prod.fst) csp.vars hknodup ?_ ?_
    · intro x hx
      rcases List.mem_map.mp hx with ⟨p, hp, rfl⟩
      exact hkeysub p hp
    · rw [List.length_map, hlen]
  have hsnap : ∀ w ∈ r.map Prod.fst, ∃ s val t,
      r = s ++ (w, val) :: t ∧
      consistent csp w (s ++ [(w, val)]) = true ∧
      val ∈ domOf csp w ∧
      (∀ u ∈ csp.vars, alookup s u = none → w.1 ≤ u.1) :=
    fun w hw => reaches_snapshot csp [] r hRe w rfl hw
  intro v hv
  unfold consistent constraintsOf
  rw [List.all_eq_true]
  intro c hcf
  obtain ⟨hcl, hvc0⟩ := List.mem_filter.mp hcf
  have hvc : v ∈ c.varsOf := by simpa using hvc0
  show satisfied c r v = true
  cases c with
  | unary c1 =>
    have hveq : v = c1.1 := by simpa [PyConstraint.varsOf] using hvc
    subst hveq
    obtain ⟨s, val, t, hrdec, hcons, _, _⟩ := hsnap c1.1 (hmemkeys c1.1 hv)
    obtain ⟨hsnone, hrlook⟩ := nodup_split_lookup r s t c1.1 val hrdec hknodup
    have hmv : alookup (s ++ [(c1.1, val)]) c1.1 = some val :=
      alookup_concat_self s c1.1 val hsnone
    have hsat := consistent_sat csp c1.1 (s ++ [(c1.1, val)]) (.unary c1)
      hcons hcl (by simp [PyConstraint.varsOf])
    have hval : val = c1.2 := (satisfied_unary_iff c1 _ val hmv).mp hsat
    exact (satisfied_unary_iff c1 r val hrlook).mpr hval
  | binary c1 c2 =>
    have hvAB : v = c1.1 ∨ v = c2.1 := by
      simpa [PyConstraint.varsOf] using hvc
    have hAv : c1.1 ∈ csp.vars :=
      hwf _ hcl c1.1 (by simp [PyConstraint.varsOf])
    have hBv : c2.1 ∈ csp.vars :=
      hwf _ hcl c2.1 (by simp [PyConstraint.varsOf])
    obtain ⟨sA, xA, tA, hrA, hconsA, _, _⟩ := hsnap c1.1 (hmemkeys _ hAv)
    obtain ⟨sB, xB, tB, hrB, hconsB, _, _⟩ := hsnap c2.1 (hmemkeys _ hBv)
    obtain ⟨hsAnone, hrAlook⟩ := nodup_split_lookup r sA tA c1.1 xA hrA hknodup
    obtain ⟨hsBnone, hrBlook⟩ := nodup_split_lookup r sB tB c2.1 xB hrB hknodup
    have hdisj : xA ≠ c1.2 ∨ xB = c2.2 := by
      by_cases hAB : c1.1 = c2.1
      · have hxAB : xA = xB := by
          rw [← hAB, hrAlook] at hrBlook
          exact Option.some.inj hrBlook
        have hmA : alookup (sA ++ [(c1.1, xA)]) c1.1 = some xA :=
          alookup_concat_self sA c1.1 xA hsAnone
        have hmB : alookup (sA ++ [(c1.1, xA)]) c2.1 = some xA := by
          rw [← hAB]
          exact hmA
        have hsat := consistent_sat csp c1.1 _ (.binary c1 c2) hconsA hcl
          (by simp [PyConstraint.varsOf])
        rcases (satisfied_binary_iff c1 c2 _ c1.1 xA xA hmA hmB
            (Or.inl rfl)).mp hsat with h1 | h1
        · exact Or.inl h1
        · exact Or.inr (hxAB ▸ h1)
      · rcases snapshot_contains_both r sA tA sB tB c1.1 c2.1 xA xB hrA hrB
            hAB with hin | hin
        · have hsBA : alookup sB c1.1 = some xA :=
            prefix_lookup_of_mem r sB ((c2.1, xB) :: tB) hrB c1.1 hin xA
              hrAlook
          have hmBA : alookup (sB ++ [(c2.1, xB)]) c1.1 = some xA :=
            alookup_append_some sB _ c1.1 xA hsBA
          have hmBB : alookup (sB ++ [(c2.1, xB)]) c2.1 = some xB :=
            alookup_concat_self sB c2.1 xB hsBnone
          have hsat := consistent_sat csp c2.1 _ (.binary c1 c2) hconsB hcl
            (by simp [PyConstraint.varsOf])
          exact (satisfied_binary_iff c1 c2 _ c2.1 xA xB hmBA hmBB
            (Or.inr rfl)).mp hsat
        · have hsAB : alookup sA c2.1 = some xB :=
            prefix_lookup_of_mem r sA ((c1.1, xA) :: tA) hrA c2.1 hin xB
              hrBlook
          have hmAB : alookup (sA ++ [(c1.1, xA)]) c2.1 = some xB :=
            alookup_append_some sA _ c2.1 xB hsAB
          have hmAA : alookup (sA ++ [(c1.1, xA)]) c1.1 = some xA :=
            alookup_concat_self sA c1.1 xA hsAnone
          have hsat := consistent_sat csp c1.1 _ (.binary c1 c2) hconsA hcl
            (by simp [PyConstraint.varsOf])
          exact (satisfied_binary_iff c1 c2 _ c1.1 xA xB hmAA hmAB
            (Or.inl rfl)).mp hsat
    exact (satisfied_binary_iff c1 c2 r v xA xB hrAlook hrBlook hvAB).mpr
      hdisj
  | ternary c1 c2 c3 =>
    obtain ⟨hts1, hts2, hvals, hact3⟩ :=
      ternaryShapeOk_spec csp hshape c1 c2 c3 hcl
    have hAv : c1.1 ∈ csp.vars :=
      hwf _ hcl c1.1 (by simp [PyConstraint.varsOf])
    have hBv : c2.1 ∈ csp.vars :=
      hwf _ hcl c2.1 (by simp [PyConstraint.varsOf])
    have hCv : c3.1 ∈ csp.vars :=
      hwf _ hcl c3.1 (by simp [PyConstraint.varsOf])
    have hneCB : c3.1 ≠ c2.1 := by
      intro he
      rw [he] at hts2
      exact Nat.lt_irrefl _ hts2
    obtain ⟨sC, xC, tC, hrC, hconsC, hdomC, hminC⟩ :=
      hsnap c3.1 (hmemkeys _ hCv)
    obtain ⟨hsCnone, hrClook⟩ := nodup_split_lookup r sC tC c3.1 xC hrC
      hknodup
    have hAsome : ∃ xA, alookup sC c1.1 = some xA := by
      cases hsa : alookup sC c1.1 with
      | some y => exact ⟨y, rfl⟩
      | none =>
        exfalso
        have := hminC c1.1 hAv hsa
        omega
    have hBsome : ∃ xB, alookup sC c2.1 = some xB := by
      cases hsb : alookup sC c2.1 with
      | some y => exact ⟨y, rfl⟩
      | none =>
        exfalso
        have := hminC c2.1 hBv hsb
        omega
    obtain ⟨xA, hsCA⟩ := hAsome
    obtain ⟨xB, hsCB⟩ := hBsome
    have hrAlook : alookup r c1.1 = some xA := by
      rw [hrC]
      exact alookup_append_some sC _ c1.1 xA hsCA
    have hrBlook : alookup r c2.1 = some xB := by
      rw [hrC]
      exact alookup_append_some sC _ c2.1 xB hsCB
    have hmCA : alookup (sC ++ [(c3.1, xC)]) c1.1 = some xA :=
      alookup_append_some sC _ c1.1 xA hsCA
    have hmCB : alookup (sC ++ [(c3.1, xC)]) c2.1 = some xB :=
      alookup_append_some sC _ c2.1 xB hsCB
    have hmCC : alookup (sC ++ [(c3.1, xC)]) c3.1 = some xC :=
      alookup_concat_self sC c3.1 xC hsCnone
    have hsatC := consistent_sat csp c3.1 _ (.ternary c1 c2 c3) hconsC hcl
      (by simp [PyConstraint.varsOf])
    have hdag : xA ≠ c1.2 ∨ xC ≠ c3.2 ∨ xB = c2.2 :=
      (satisfied_ternary_aft_iff c1 c2 c3 _ xA xB xC hmCA hmCB hmCC hact3
        hneCB).mp hsatC
    have hsibmem := ternaryComplete_spec csp hcomp c1 c2 c3 hcl xC hdomC
    have hsatC2 := consistent_sat csp c3.1 _
      (.ternary c1 (c2.1, xC) (c3.1, xC)) hconsC hsibmem
      (by simp [PyConstraint.varsOf])
    have hddag : xA ≠ c1.2 ∨ xB = xC := by
      rcases (satisfied_ternary_aft_iff c1 (c2.1, xC) (c3.1, xC) _ xA xB xC
          hmCA hmCB hmCC hact3 hneCB).mp hsatC2 with h | h | h
      · exact Or.inl h
      · exact absurd rfl h
      · exact Or.inr h
    by_cases hvact : Tag.str "act" ∈ v.2
    · exact satisfied_ternary_other c1 c2 c3 r v (Or.inl hvact)
    · by_cases hv2 : v = c2.1
      · subst hv2
        refine (satisfied_ternary_bef_iff c1 c2 c3 r xA xB xC hrAlook
          hrBlook hrClook hvact).mpr ?_
        rcases hddag with h | h
        · exact Or.inl h
        · by_cases hxb2 : xB = c2.2
          · refine Or.inr (Or.inr ?_)
            rw [← h, hxb2]
            exact hvals
          · exact Or.inr (Or.inl hxb2)
      · by_cases hv3 : v = c3.1
        · subst hv3
          exact (satisfied_ternary_aft_iff c1 c2 c3 r xA xB xC hrAlook
            hrBlook hrClook hact3 hneCB).mpr hdag
        · exact satisfied_ternary_other c1 c2 c3 r v (Or.inr ⟨hv2, hv3⟩)

/-- Witness for `backtracking_search_sound` on the concrete instance
`c1wit`, at the before-variable `(0, 'p')` of its frame family. -/
theorem backtracking_search_sound_witness :
    consistent c1wit ((0 : Nat), [Tag.str "p"])
      [((0, [Tag.str "act"]), Value.str "m"),
       ((0, [Tag.str "p"]), Value.bool true),
       ((1, [Tag.str "p"]), Value.bool true)] = true :=
  backtracking_search_sound c1wit (by decide) (by decide) (by decide)
    [((0, [Tag.str "act"]), Value.str "m"),
     ((0, [Tag.str "p"]), Value.bool true),
     ((1, [Tag.str "p"]), Value.bool true)]
    (by decide) ((0 : Nat), [Tag.str "p"]) (by decide)

end PlanningCSP
